import Mathlib

/-!
Shallow embedding of the partition-index repository (Rust) in Lean 4.

Machine integers (`u64`, `u16`, `usize`) are modelled as `Nat` with explicit
reduction `% 2 ^ 64` where the Rust code can wrap.  Fallible operations return
`Option`.  The eviction randomness of the cuckoo filters
(`rand::thread_rng().gen_range`) is modelled by an explicit oracle: a list of
naturals consumed one per eviction, reduced modulo the bucket length so that
every oracle yields an in-range choice and every in-range choice is realised
by some oracle.  File-system state is modelled explicitly as the contents of
the per-bucket files plus the manifest file.
-/

set_option autoImplicit false

namespace PartitionIndex

/-! ## SipHash-1-3 (Rust `std::collections::hash_map::DefaultHasher`)

`DefaultHasher::new()` is `SipHasher13::new_with_keys(0, 0)`.  `write_u64`
feeds the 8 little-endian bytes of the argument (one full 8-byte block, since
all writes in this code base are whole `u64`s), and `finish` runs the usual
SipHash finalisation with the byte count written so far.  All state words are
64-bit; we keep them as `Nat` values below `2 ^ 64`.
-/

def U64MOD : Nat := 2 ^ 64

/-- Wrapping 64-bit addition. -/
def wadd (a b : Nat) : Nat := (a + b) % U64MOD

/-- 64-bit left rotation (inputs below `2 ^ 64`). -/
def rotl64 (x n : Nat) : Nat := ((x <<< n) % U64MOD) ||| (x >>> (64 - n))

/-- Wrapping 64-bit subtraction `a.wrapping_sub b` for `a, b < 2 ^ 64`. -/
def wsub (a b : Nat) : Nat := (a + U64MOD - b) % U64MOD

structure SipState where
  v0 : Nat
  v1 : Nat
  v2 : Nat
  v3 : Nat
  deriving DecidableEq

/-- One SipHash round. -/
def sipRound (s : SipState) : SipState :=
  let v0 := wadd s.v0 s.v1
  let v1 := rotl64 s.v1 13
  let v1 := v1 ^^^ v0
  let v0 := rotl64 v0 32
  let v2 := wadd s.v2 s.v3
  let v3 := rotl64 s.v3 16
  let v3 := v3 ^^^ v2
  let v0 := wadd v0 v3
  let v3 := rotl64 v3 21
  let v3 := v3 ^^^ v0
  let v2 := wadd v2 v1
  let v1 := rotl64 v1 17
  let v1 := v1 ^^^ v2
  let v2 := rotl64 v2 32
  ⟨v0, v1, v2, v3⟩

/-- Initial SipHash state for keys `k0 = k1 = 0`. -/
def sipInitState : SipState :=
  ⟨0x736f6d6570736575, 0x646f72616e646f6d, 0x6c7967656e657261, 0x7465646279746573⟩

/-- Compress one 8-byte message block (SipHash-1-3: one round per block). -/
def sipCompress (s : SipState) (m : Nat) : SipState :=
  let s := { s with v3 := s.v3 ^^^ m }
  let s := sipRound s
  { s with v0 := s.v0 ^^^ m }

/-- SipHash-1-3 finalisation given the number of bytes written so far. -/
def sipFinalize (s : SipState) (lenBytes : Nat) : Nat :=
  let b := (lenBytes % 256) <<< 56
  let s := { s with v3 := s.v3 ^^^ b }
  let s := sipRound s
  let s := { s with v0 := s.v0 ^^^ b }
  let s := { s with v2 := s.v2 ^^^ 0xff }
  let s := sipRound (sipRound (sipRound s))
  s.v0 ^^^ s.v1 ^^^ s.v2 ^^^ s.v3

/-- A `DefaultHasher` mid-stream: SipHash state plus bytes written.  All
writes in the source are whole `u64`s, so no partial-block buffer is needed. -/
structure HasherState where
  sip : SipState
  len : Nat
  deriving DecidableEq

def hasherNew : HasherState := ⟨sipInitState, 0⟩

def writeU64 (h : HasherState) (x : Nat) : HasherState :=
  ⟨sipCompress h.sip (x % U64MOD), h.len + 8⟩

def hasherFinish (h : HasherState) : Nat := sipFinalize h.sip h.len

/-- Embeds `filter::cuckoo::hash`: hash a single `u64` with a fresh `DefaultHasher`. -/
def hash (key : Nat) : Nat := hasherFinish (writeU64 hasherNew key)

/-- The loop body of `filter::cuckoo::fingerprint`: keep feeding the previous
64-bit digest into the *same* hasher until the low 16 bits are non-zero.
The Rust loop is unbounded; `fuel` makes the recursion structural, and `none`
stands for the (never observed) non-terminating case. -/
def fingerprintLoop : Nat → HasherState → Nat → Option Nat
  | 0, _, _ => none
  | fuel + 1, h, keyRot =>
    let h := writeU64 h keyRot
    let r := hasherFinish h
    if r &&& 0xFFFF ≠ 0 then some (r &&& 0xFFFF) else fingerprintLoop fuel h r

/-- Embeds `filter::cuckoo::fingerprint`, with fuel 64. -/
def fingerprintAux (key : Nat) : Option Nat :=
  fingerprintLoop 64 hasherNew (key % U64MOD)

/-- Total wrapper: `0` (the invalid-fingerprint sentinel) stands for the
non-terminating case, which the code never reaches on real inputs. -/
def fingerprint (key : Nat) : Nat := (fingerprintAux key).getD 0

/-! ## Bucket algebra of `filter/cuckoo/mod.rs` (used by the index query path) -/

/-- Embeds `filter::cuckoo::bucket`: primary bucket of a key. -/
def bucket (key buckets : Nat) : Nat := hash key % buckets

/-- Embeds `filter::cuckoo::flip_bucket`: partner bucket,
`hash(fp).wrapping_sub(bucket) % buckets`. -/
def flip_bucket (fingerprint bucket buckets : Nat) : Nat :=
  wsub (hash fingerprint) bucket % buckets

/-! ## `filter::InsertResult` -/

inductive InsertResult where
  | Success
  | Duplicate
  | Rejected
  deriving DecidableEq

/-! ## `filter/cuckoo/growable.rs`: the per-partition growable cuckoo filter -/

structure GrowableCuckooFilter where
  data : List (List Nat)
  buckets : Nat
  entries_per_bucket : Nat
  items : Nat
  deriving DecidableEq

namespace GrowableCuckooFilter

def new (buckets : Nat) : GrowableCuckooFilter :=
  ⟨List.replicate buckets [], buckets, 1, 0⟩

/-- Embeds `GrowableCuckooFilter::bucket`: XOR-folded primary bucket. -/
def bucket (f : GrowableCuckooFilter) (key fingerprint : Nat) : Nat :=
  let fp_hash := hash fingerprint % f.buckets
  ((hash key % f.buckets) ^^^ fp_hash) % f.buckets

/-- Embeds `GrowableCuckooFilter::flip_bucket`: XOR partner bucket. -/
def flip_bucket (f : GrowableCuckooFilter) (fingerprint bucket : Nat) : Nat :=
  let fp_hash := hash fingerprint % f.buckets
  (bucket ^^^ fp_hash) % f.buckets

/-- The bucket list the Rust code binds as `entries`. -/
def entriesAt (f : GrowableCuckooFilter) (bucket : Nat) : List Nat :=
  f.data.getD bucket []

/-- The filter after the eviction step replaced slot `entry` of `bucket` by
the pending fingerprint. -/
def evictAt (f : GrowableCuckooFilter) (fingerprint bucket entry : Nat) :
    GrowableCuckooFilter :=
  { f with data := f.data.set bucket ((entriesAt f bucket).set entry fingerprint) }

/-- Embeds `GrowableCuckooFilter::try_insert`.  `oracle` supplies the random eviction
choices (`gen_range(0..entries.len())` is the head reduced modulo the
length); the returned list is the unconsumed remainder. -/
def try_insert (f : GrowableCuckooFilter) (fingerprint bucket : Nat)
    (tries : Nat) (oracle : List Nat) :
    InsertResult × GrowableCuckooFilter × List Nat :=
    if (entriesAt f bucket).length < f.entries_per_bucket then
      (.Success,
       { f with data := f.data.set bucket (entriesAt f bucket ++ [fingerprint]),
                items := f.items + 1 },
       oracle)
    else
      match tries with
      | 0 =>
        (.Success,
         { f with entries_per_bucket := f.entries_per_bucket + 1,
                  data := f.data.set bucket (entriesAt f bucket ++ [fingerprint]),
                  items := f.items + 1 },
         oracle)
      | t + 1 =>
        try_insert
          (evictAt f fingerprint bucket
            (oracle.headD 0 % (entriesAt f bucket).length))
          ((entriesAt f bucket).getD
            (oracle.headD 0 % (entriesAt f bucket).length) 0)
          ((evictAt f fingerprint bucket
            (oracle.headD 0 % (entriesAt f bucket).length)).flip_bucket
            ((entriesAt f bucket).getD
              (oracle.headD 0 % (entriesAt f bucket).length) 0)
            bucket)
          t oracle.tail

def find_in_bucket (f : GrowableCuckooFilter) (fingerprint bucket : Nat) : Bool :=
  (f.data.getD bucket []).contains fingerprint

/-- Embeds `<GrowableCuckooFilter as Filter>::insert`. -/
def insert (f : GrowableCuckooFilter) (key : Nat) (oracle : List Nat) :
    InsertResult × GrowableCuckooFilter × List Nat :=
  let fingerprint := PartitionIndex.fingerprint key
  let bucket := f.bucket key fingerprint
  let other := f.flip_bucket fingerprint bucket
  if f.find_in_bucket fingerprint bucket || f.find_in_bucket fingerprint other then
    (.Duplicate, f, oracle)
  else if (f.entriesAt other).length < f.entries_per_bucket then
    f.try_insert fingerprint other 63 oracle
  else
    f.try_insert fingerprint bucket 63 oracle

/-- Embeds `<GrowableCuckooFilter as Filter>::contains`. -/
def containsKey (f : GrowableCuckooFilter) (key : Nat) : Bool :=
  let fingerprint := PartitionIndex.fingerprint key
  let bucket := f.bucket key fingerprint
  let alt := f.flip_bucket fingerprint bucket
  f.find_in_bucket fingerprint bucket || f.find_in_bucket fingerprint alt

/-- Modelled from the spec: `GrowableCuckooFilter::drain` (called from
`CuckooIndex::add` but absent from the sources) — yields the per-bucket
fingerprint lists of the builder, spec section 4.2: output
`W` together with the per-bucket fingerprint lists, each of length at most `W`. -/
def drain (f : GrowableCuckooFilter) : List (List Nat) := f.data

/-- Modelled from the spec: `GrowableCuckooFilter::elements` (called from
`CuckooIndex::add` but absent from the sources) — the number of stored
fingerprints, recorded as `PartitionInfo.elements` (spec sections 3 and 4.3);
the filter tracks it in `items`. -/
def elements (f : GrowableCuckooFilter) : Nat := f.items

end GrowableCuckooFilter

/-! ## `index/in_memory/mod.rs`: the in-memory generation -/

structure PartitionInfo (P : Type) where
  partition : P
  bucket_size : Nat
  active : Bool
  elements : Nat
  deriving DecidableEq

structure CuckooIndex (P : Type) where
  partitions : List (PartitionInfo P)
  buckets : List (List Nat)
  slots : Nat
  elements : Nat
  deriving DecidableEq

/-- Sum of the widths (`bucket_size`) of a manifest segment. -/
def totalWidth {P : Type} (ps : List (PartitionInfo P)) : Nat :=
  (ps.map (fun p => p.bucket_size)).sum

/-- The common manifest-scan loop of `CuckooIndex::query` and
`PersistentIndex::query_disk`: walk the manifest, and for each active
partition emit its identifier once per slot of its width whose fingerprint in
either candidate column matches. -/
def queryScan {P : Type} : List (PartitionInfo P) → List Nat → List Nat → Nat → Nat → List P
  | [], _, _, _, _ => []
  | p :: rest, col1, col2, fp, pos =>
    (if p.active then
      (List.range p.bucket_size).filterMap fun l =>
        if col1.getD (pos + l) 0 = fp ∨ col2.getD (pos + l) 0 = fp then
          some p.partition
        else none
     else []) ++ queryScan rest col1 col2 fp (pos + p.bucket_size)

namespace CuckooIndex

def new (P : Type) (buckets : Nat) : CuckooIndex P :=
  ⟨[], List.replicate buckets [], 0, 0⟩

/-- Embeds `CuckooIndex::index_single_partition`: feed all values of one partition
into a fresh growable filter, threading the eviction oracle. -/
def index_single_partition {P : Type} (idx : CuckooIndex P) (values : List Nat)
    (oracle : List Nat) : GrowableCuckooFilter :=
  (values.foldl
    (fun acc v =>
      let r := acc.1.insert v acc.2
      (r.2.1, r.2.2))
    (GrowableCuckooFilter.new idx.buckets.length, oracle)).1

/-- Embeds `<CuckooIndex as PartitionFilter>::query`. -/
def query {P : Type} (idx : CuckooIndex P) (key : Nat) : List P :=
  let fingerprint := PartitionIndex.fingerprint key
  let bucket1 := PartitionIndex.bucket key idx.buckets.length
  let bucket2 := flip_bucket fingerprint bucket1 idx.buckets.length
  queryScan idx.partitions (idx.buckets.getD bucket1 []) (idx.buckets.getD bucket2 [])
    fingerprint 0

/-- Embeds `<CuckooIndex as PartitionIndex>::add`. -/
def add {P : Type} (idx : CuckooIndex P) (values : List Nat) (partition : P)
    (oracle : List Nat) : CuckooIndex P :=
  let f := idx.index_single_partition values oracle
  let slots2 := idx.slots + f.entries_per_bucket
  { partitions := idx.partitions ++
      [⟨partition, f.entries_per_bucket, true, f.elements⟩]
    buckets := List.zipWith
      (fun partition_values bucket =>
        let b := bucket ++ partition_values
        if b.length < slots2 then b ++ List.replicate (slots2 - b.length) 0 else b)
      f.drain idx.buckets
    slots := slots2
    elements := idx.elements + f.elements }

/-- Pad one builder bucket list on the right with the zero sentinel up to the
builder width (the inner loop of `CuckooIndex::add_many`). -/
def padTo (w : Nat) (l : List Nat) : List Nat := l ++ List.replicate (w - l.length) 0

/-- Embeds `CuckooIndex::add_many`.  Each batch entry carries its own eviction
oracle. -/
def add_many {P : Type} (idx : CuckooIndex P) (batch : List (P × List Nat × List Nat)) :
    CuckooIndex P :=
  let filters := batch.map fun b => (b.1, idx.index_single_partition b.2.1 b.2.2)
  let new_slots := (filters.map fun f => f.2.entries_per_bucket).sum
  { partitions := idx.partitions ++
      filters.map (fun f => ⟨f.1, f.2.entries_per_bucket, true, f.2.elements⟩)
    buckets := idx.buckets.mapIdx fun i b =>
      b ++ (filters.map fun f => padTo f.2.entries_per_bucket (f.2.data.getD i [])).flatten
    slots := idx.slots + new_slots
    elements := idx.elements + (filters.map fun f => f.2.elements).sum }

/-- Embeds `<CuckooIndex as PartitionIndex>::remove`: tombstone every manifest entry
of the partition. -/
def remove {P : Type} [DecidableEq P] (idx : CuckooIndex P) (p : P) : CuckooIndex P :=
  { idx with partitions := idx.partitions.map fun q =>
      if q.partition = p then { q with active := false } else q }

end CuckooIndex

/-! ## `index/poc/mod.rs`: the persistent index and its file system

The file system is modelled as the `N` per-bucket files (a flat list of
16-bit fingerprint entries each; a missing file is the empty list, matching
the create-on-append semantics) plus the manifest file `partitions.data`,
which holds a serialised `PersistentIndexData` (`bincode` round-tripping is
modelled as exact). -/

structure PersistentIndexData (P : Type) where
  num_buckets : Nat
  slots : Nat
  partitions : List (PartitionInfo P)
  deriving DecidableEq

structure PersistentIndex (P : Type) where
  data : PersistentIndexData P
  mem_index : CuckooIndex P
  deriving DecidableEq

structure FileSystem (P : Type) where
  bucketFiles : List (List Nat)
  manifest : Option (PersistentIndexData P)
  deriving DecidableEq

/-- A bucket file's size in bytes: two bytes per `u16` entry
(`to_u8_slice`). -/
def fileBytes (f : List Nat) : Nat := 2 * f.length

namespace PersistentIndex

/-- Embeds `PersistentIndex::try_new` (the index part; a fresh directory has no
files). -/
def try_new (P : Type) (buckets : Nat) : PersistentIndex P :=
  ⟨⟨buckets, 0, []⟩, CuckooIndex.new P buckets⟩

/-- The file-system state of a fresh `storage_root`. -/
def freshFs (P : Type) (buckets : Nat) : FileSystem P :=
  ⟨List.replicate buckets [], none⟩

/-- Embeds `PersistentIndex::try_load_from_disk`: requires a readable manifest. -/
def try_load_from_disk {P : Type} (fs : FileSystem P) : Option (PersistentIndex P) :=
  fs.manifest.map fun d => ⟨d, CuckooIndex.new P d.num_buckets⟩

/-- Embeds `PersistentIndex::persist` (success path): append every in-memory bucket
column to its bucket file, fold the in-memory manifest tail into the
persistent manifest, reset the in-memory generation, and write the manifest
file in place. -/
def persist {P : Type} (s : PersistentIndex P) (fs : FileSystem P) :
    PersistentIndex P × FileSystem P :=
  let files2 := List.zipWith (fun file b => file ++ b) fs.bucketFiles s.mem_index.buckets
  let data2 : PersistentIndexData P :=
    ⟨s.data.num_buckets, s.mem_index.slots, s.data.partitions ++ s.mem_index.partitions⟩
  (⟨data2, CuckooIndex.new P s.data.num_buckets⟩, ⟨files2, some data2⟩)

/-- Embeds `PersistentIndex::query_disk`.  The source reads the per-partition width
from the manifest entry (the field it calls `entries`, i.e. `bucket_size`). -/
def query_disk {P : Type} (s : PersistentIndex P) (fs : FileSystem P) (key : Nat) :
    List P :=
  if s.data.partitions.isEmpty then [] else
  let fingerprint := PartitionIndex.fingerprint key
  let bucket1 := PartitionIndex.bucket key s.data.num_buckets
  let bucket2 := flip_bucket fingerprint bucket1 s.data.num_buckets
  queryScan s.data.partitions (fs.bucketFiles.getD bucket1 [])
    (fs.bucketFiles.getD bucket2 []) fingerprint 0

/-- Embeds `<PersistentIndex as PartitionFilter>::query`: disk results then
in-memory results. -/
def query {P : Type} (s : PersistentIndex P) (fs : FileSystem P) (key : Nat) : List P :=
  query_disk s fs key ++ s.mem_index.query key

/-- Embeds `<PersistentIndex as PartitionIndex>::add`: delegates to the in-memory
generation. -/
def add {P : Type} (s : PersistentIndex P) (values : List Nat) (partition : P)
    (oracle : List Nat) : PersistentIndex P :=
  { s with mem_index := s.mem_index.add values partition oracle }

/-- Embeds `<PersistentIndex as PartitionIndex>::remove`: delegates to the in-memory
generation only. -/
def remove {P : Type} [DecidableEq P] (s : PersistentIndex P) (p : P) :
    PersistentIndex P :=
  { s with mem_index := s.mem_index.remove p }

end PersistentIndex

/-! ## File-system operation traces of `persist`, and its failure model

`persist` performs, in order: `create_dir_all`, one append per bucket file,
then a direct (in-place, `write(true).create(true)`, no truncate) write of
`partitions.data`.  `ManifestTarget` distinguishes `partitions.data` from the
hypothetical `partitions.data.tmp`; `FsOp.renameFile` is the hypothetical
atomic-replace step.  Neither appears in the source's `persist`. -/

inductive ManifestTarget where
  | dataFile
  | tmpFile
  deriving DecidableEq

inductive FsOp (P : Type) where
  | createDirAll
  | appendBucketFile (idx : Nat) (contents : List Nat)
  | writeManifest (target : ManifestTarget) (d : PersistentIndexData P)
  | renameFile (src dst : ManifestTarget)
  deriving DecidableEq

/-- The file-system operations issued by `PersistentIndex::persist`, in
program order. -/
def persistOps {P : Type} (s : PersistentIndex P) : List (FsOp P) :=
  FsOp.createDirAll ::
    ((s.mem_index.buckets.mapIdx fun i b => FsOp.appendBucketFile i b) ++
      [FsOp.writeManifest .dataFile
        ⟨s.data.num_buckets, s.mem_index.slots,
         s.data.partitions ++ s.mem_index.partitions⟩])

/-- Does an operation write the tmp manifest or perform a rename? -/
def touchesTmpOrRename {P : Type} : FsOp P → Bool
  | .writeManifest .tmpFile _ => true
  | .renameFile _ _ => true
  | _ => false

/-- Embeds `persist` with an injected I/O failure:  `failAt = some 0` fails at
`create_dir_all`, `some (i + 1)` (for `i < N`) at the append of bucket file
`i`, and `some (N + 1)` at the manifest write.  The error value is the
`(index, file system)` state left behind; note that the source resets the
in-memory generation and folds it into `data` *before* opening the manifest
file. -/
def persistWithFailure {P : Type} (s : PersistentIndex P) (fs : FileSystem P)
    (failAt : Option Nat) :
    Except (PersistentIndex P × FileSystem P) (PersistentIndex P × FileSystem P) :=
  match failAt with
  | none => .ok (PersistentIndex.persist s fs)
  | some j =>
    if j = 0 then .error (s, fs)
    else if j ≤ s.mem_index.buckets.length then
      .error (s, { fs with bucketFiles := fs.bucketFiles.mapIdx fun i file =>
        if i + 1 < j then file ++ s.mem_index.buckets.getD i [] else file })
    else if j = s.mem_index.buckets.length + 1 then
      .error
        (⟨⟨s.data.num_buckets, s.mem_index.slots,
           s.data.partitions ++ s.mem_index.partitions⟩,
          CuckooIndex.new P s.data.num_buckets⟩,
         { fs with bucketFiles :=
            List.zipWith (fun file b => file ++ b) fs.bucketFiles s.mem_index.buckets })
    else .ok (PersistentIndex.persist s fs)

/-! ## Invariants and reachable states -/

/-- Width invariant of the growable filter: no bucket list ever exceeds the
current `entries_per_bucket`. -/
def GrowableCuckooFilter.WfData (f : GrowableCuckooFilter) : Prop :=
  ∀ l ∈ f.data, l.length ≤ f.entries_per_bucket

/-- Stride invariant of the in-memory generation: every bucket column has
exactly `slots` entries, and `slots` is the total width of its manifest. -/
def CuckooIndex.Wf {P : Type} (m : CuckooIndex P) : Prop :=
  (∀ b ∈ m.buckets, b.length = m.slots) ∧ m.slots = totalWidth m.partitions

/-- Joint invariant of a persistent index and its file system. -/
structure Inv {P : Type} (s : PersistentIndex P) (fs : FileSystem P) : Prop where
  nb_pos : 0 < s.data.num_buckets
  mem_len : s.mem_index.buckets.length = s.data.num_buckets
  files_len : fs.bucketFiles.length = s.data.num_buckets
  mem_wf : s.mem_index.Wf
  file_stride : ∀ f ∈ fs.bucketFiles, f.length = totalWidth s.data.partitions
  manifest_ok : fs.manifest = some s.data ∨
    (fs.manifest = none ∧ s.data.partitions = [])

/-- One in-memory mutation of the persistent index (`add`, `add_many` or
`remove`, all of which delegate to the in-memory generation). -/
inductive MemOp (P : Type) [DecidableEq P] : CuckooIndex P → CuckooIndex P → Prop where
  | add (m : CuckooIndex P) (values : List Nat) (partition : P) (oracle : List Nat) :
      MemOp P m (m.add values partition oracle)
  | add_many (m : CuckooIndex P) (batch : List (P × List Nat × List Nat)) :
      MemOp P m (m.add_many batch)
  | remove (m : CuckooIndex P) (p : P) :
      MemOp P m (m.remove p)

/-- States of a persistent index (paired with its storage) reachable from a
fresh index by in-memory mutations, `persist` and reloads. -/
inductive Reachable (P : Type) [DecidableEq P] :
    PersistentIndex P → FileSystem P → Prop where
  | init (buckets : Nat) (hb : 0 < buckets) :
      Reachable P (PersistentIndex.try_new P buckets) (PersistentIndex.freshFs P buckets)
  | mem_step (s : PersistentIndex P) (fs : FileSystem P) (m2 : CuckooIndex P) :
      Reachable P s fs → MemOp P s.mem_index m2 →
      Reachable P ⟨s.data, m2⟩ fs
  | persist_step (s : PersistentIndex P) (fs : FileSystem P) :
      Reachable P s fs →
      Reachable P (PersistentIndex.persist s fs).1 (PersistentIndex.persist s fs).2
  | load_step (s : PersistentIndex P) (fs : FileSystem P) (s2 : PersistentIndex P) :
      Reachable P s fs → PersistentIndex.try_load_from_disk fs = some s2 →
      Reachable P s2 fs

/-! ## Basic bounds: every hash state word stays below `2 ^ 64` -/

/-- Well-formedness of a SipHash state: all four words are 64-bit values. -/
def SipState.Wf (s : SipState) : Prop :=
  s.v0 < U64MOD ∧ s.v1 < U64MOD ∧ s.v2 < U64MOD ∧ s.v3 < U64MOD

theorem wadd_lt (a b : Nat) : wadd a b < U64MOD :=
  Nat.mod_lt _ (by decide)

theorem rotl64_lt (x n : Nat) (hx : x < U64MOD) : rotl64 x n < U64MOD := by
  unfold rotl64
  have h1 : (x <<< n) % U64MOD < U64MOD := Nat.mod_lt _ (by decide)
  have h2 : x >>> (64 - n) < U64MOD := by
    calc x >>> (64 - n) ≤ x := by
          rw [Nat.shiftRight_eq_div_pow]; exact Nat.div_le_self _ _
      _ < U64MOD := hx
  exact Nat.or_lt_two_pow h1 h2

theorem xor64_lt {a b : Nat} (ha : a < U64MOD) (hb : b < U64MOD) : a ^^^ b < U64MOD :=
  Nat.xor_lt_two_pow ha hb

theorem sipRound_wf {s : SipState} (h : s.Wf) : (sipRound s).Wf := by
  obtain ⟨h0, h1, h2, h3⟩ := h
  refine ⟨?_, ?_, ?_, ?_⟩ <;>
    simp only [sipRound] <;>
    repeat' first
      | exact wadd_lt _ _
      | apply rotl64_lt
      | apply xor64_lt
      | assumption

theorem sipCompress_wf {s : SipState} (h : s.Wf) (m : Nat) (hm : m < U64MOD) :
    (sipCompress s m).Wf := by
  obtain ⟨h0, h1, h2, h3⟩ := h
  have hmid : (sipRound { s with v3 := s.v3 ^^^ m }).Wf :=
    sipRound_wf ⟨h0, h1, h2, xor64_lt h3 hm⟩
  obtain ⟨g0, g1, g2, g3⟩ := hmid
  exact ⟨xor64_lt g0 hm, g1, g2, g3⟩

theorem sipInitState_wf : SipState.Wf sipInitState :=
  ⟨by decide, by decide, by decide, by decide⟩

theorem sipFinalize_lt {s : SipState} (h : s.Wf) (len : Nat) :
    sipFinalize s len < U64MOD := by
  obtain ⟨h0, h1, h2, h3⟩ := h
  have hb : (len % 256) <<< 56 < U64MOD := by
    have h255 : len % 256 ≤ 255 := by omega
    calc (len % 256) <<< 56 = (len % 256) * 2 ^ 56 := Nat.shiftLeft_eq _ _
      _ ≤ 255 * 2 ^ 56 := Nat.mul_le_mul_right _ h255
      _ < U64MOD := by norm_num [U64MOD]
  have hfin :
      (sipRound (sipRound (sipRound
        { sipRound { s with v3 := s.v3 ^^^ (len % 256) <<< 56 } with
          v0 := (sipRound { s with v3 := s.v3 ^^^ (len % 256) <<< 56 }).v0 ^^^
            (len % 256) <<< 56,
          v2 := (sipRound { s with v3 := s.v3 ^^^ (len % 256) <<< 56 }).v2 ^^^ 0xff }))).Wf := by
    apply sipRound_wf; apply sipRound_wf; apply sipRound_wf
    have hmid : (sipRound { s with v3 := s.v3 ^^^ (len % 256) <<< 56 }).Wf :=
      sipRound_wf ⟨h0, h1, h2, xor64_lt h3 hb⟩
    obtain ⟨g0, g1, g2, g3⟩ := hmid
    exact ⟨xor64_lt g0 hb, g1, xor64_lt g2 (by norm_num [U64MOD]), g3⟩
  obtain ⟨g0, g1, g2, g3⟩ := hfin
  simp only [sipFinalize]
  exact xor64_lt (xor64_lt (xor64_lt g0 g1) g2) g3

/-- Every hasher state reachable by whole-`u64` writes is well formed. -/
theorem writeU64_wf {h : HasherState} (hw : h.sip.Wf) (x : Nat) :
    (writeU64 h x).sip.Wf :=
  sipCompress_wf hw _ (Nat.mod_lt _ (by decide))

theorem hash_lt (key : Nat) : hash key < U64MOD :=
  sipFinalize_lt (writeU64_wf sipInitState_wf key) _

/-! ## Claim C9: fingerprints are non-zero 16-bit values -/

theorem fingerprintLoop_range :
    ∀ (fuel : Nat) (h : HasherState) (kr v : Nat),
      fingerprintLoop fuel h kr = some v → 1 ≤ v ∧ v ≤ 65535 := by
  intro fuel
  induction fuel with
  | zero => intro h kr v hv; simp [fingerprintLoop] at hv
  | succ n ih =>
    intro h kr v hv
    rw [fingerprintLoop] at hv
    by_cases hnz : hasherFinish (writeU64 h kr) &&& 0xFFFF ≠ 0
    · rw [if_pos hnz] at hv
      have hv' : hasherFinish (writeU64 h kr) &&& 0xFFFF = v := by
        exact Option.some.inj hv
      constructor
      · omega
      · have : v ≤ 0xFFFF := hv' ▸ Nat.and_le_right
        omega
    · rw [if_neg hnz] at hv
      exact ih _ _ _ hv

/-- Claim C9 — confirmed.  Whenever the fingerprint loop returns (`fuel`
models the unbounded Rust loop, `none` its divergence), the result is a
deterministic non-zero 16-bit value in `[1, 65535]`. -/
theorem fingerprint_nonzero_deterministic (key v : Nat)
    (h : fingerprintAux key = some v) :
    fingerprint key = v ∧ 1 ≤ v ∧ v ≤ 65535 ∧
      ∀ w, fingerprintAux key = some w → w = v := by
  obtain ⟨h1, h2⟩ := fingerprintLoop_range _ _ _ _ h
  refine ⟨by rw [fingerprint, h]; rfl, h1, h2, ?_⟩
  intro w hw
  rw [h] at hw
  exact (Option.some.inj hw).symm

/-- Witness for C9 at the concrete key `0`. -/
theorem fingerprint_nonzero_witness :
    fingerprintAux 0 = some 40517 ∧
      (fingerprint 0 = 40517 ∧ 1 ≤ 40517 ∧ 40517 ≤ 65535 ∧
        ∀ w, fingerprintAux 0 = some w → w = 40517) :=
  ⟨by decide, fingerprint_nonzero_deterministic 0 40517 (by decide)⟩

/-! ## Claim C2: the wrapping-subtraction partner map

`flip_bucket fp · buckets` is an involution on `[0, buckets)` only while no
wrap-around occurs, i.e. while the bucket index never exceeds `hash fp`; a
bucket count beyond `hash fp + 1` breaks it. -/

/-- Claim C2 — counterexample.  For the non-zero 16-bit fingerprint `1` and
the (valid `u64`) bucket count `hash 1 + 2`, the partner of the partner of
bucket `hash 1 + 1` is not the original bucket: the involution fails for
arbitrary `N`. -/
theorem flip_bucket_not_involutive :
    (1 : Nat) ≠ 0 ∧ (1 : Nat) < 65536 ∧
      0 < hash 1 + 2 ∧ hash 1 + 2 < U64MOD ∧ hash 1 + 1 < hash 1 + 2 ∧
      flip_bucket 1 (flip_bucket 1 (hash 1 + 1) (hash 1 + 2)) (hash 1 + 2) ≠
        hash 1 + 1 := by
  refine ⟨by decide, by decide, by omega, by decide, by omega, by decide⟩

/-- Claim C2 — amended.  The partner map is an involution whenever the bucket
count stays at most `hash fp + 1` (so the `wrapping_sub` never wraps); this
covers every bucket count the tests exercise. -/
theorem flip_bucket_involution (fp b buckets : Nat) (hfp : fp ≠ 0)
    (hfp16 : fp < 65536) (hbk : 0 < buckets) (hb : b < buckets)
    (hle : buckets ≤ hash fp + 1) :
    flip_bucket fp (flip_bucket fp b buckets) buckets = b := by
  unfold flip_bucket
  have hh := hash_lt fp
  revert hbk hb hle hh
  generalize hash fp = h
  intro hbk hb hle hh
  have hble : b ≤ h := by omega
  have wsub_eq : ∀ c : Nat, c ≤ h → wsub h c = h - c := by
    intro c hc
    unfold wsub
    have : h + U64MOD - c = (h - c) + U64MOD := by omega
    rw [this, Nat.add_mod_right]
    exact Nat.mod_eq_of_lt (by omega)
  rw [wsub_eq b hble]
  have hp1le : (h - b) % buckets ≤ h :=
    le_trans (Nat.mod_le _ _) (Nat.sub_le _ _)
  rw [wsub_eq _ hp1le]
  have hdm := Nat.div_add_mod (h - b) buckets
  have hstep : h - (h - b) % buckets = b + buckets * ((h - b) / buckets) := by
    omega
  rw [hstep, Nat.add_mul_mod_self_left]
  exact Nat.mod_eq_of_lt hb

/-- Witness for the amended C2 at `fp = 1`, `buckets = 3`, `b = 2`. -/
theorem flip_bucket_involution_witness :
    flip_bucket 1 (flip_bucket 1 2 3) 3 = 2 :=
  flip_bucket_involution 1 2 3 (by decide) (by decide) (by decide) (by decide)
    (by decide)

/-! ## The growable filter always accepts (claims C8, C6) -/

theorem getD_nil_mem_or_eq {α : Type} (l : List (List α)) (b : Nat) :
    l.getD b [] ∈ l ∨ l.getD b [] = [] := by
  by_cases hb : b < l.length
  · left
    rw [List.getD_eq_getElem _ _ hb]
    exact l.getElem_mem hb
  · right
    rw [List.getD_eq_getElem?_getD, List.getElem?_eq_none (by omega)]
    rfl

/-- Unfolding `try_insert` when the target bucket has room: push. -/
theorem try_insert_room {f : GrowableCuckooFilter} {fp b : Nat} (tries : Nat)
    (o : List Nat)
    (hroom : (GrowableCuckooFilter.entriesAt f b).length < f.entries_per_bucket) :
    f.try_insert fp b tries o =
      (.Success,
       { f with data := f.data.set b (GrowableCuckooFilter.entriesAt f b ++ [fp]),
                items := f.items + 1 },
       o) := by
  rw [GrowableCuckooFilter.try_insert.eq_def, if_pos hroom]

/-- Unfolding `try_insert` on a full bucket with the budget exhausted: grow
the width and push. -/
theorem try_insert_grow {f : GrowableCuckooFilter} {fp b : Nat} (o : List Nat)
    (hfull : ¬ (GrowableCuckooFilter.entriesAt f b).length < f.entries_per_bucket) :
    f.try_insert fp b 0 o =
      (.Success,
       { f with entries_per_bucket := f.entries_per_bucket + 1,
                data := f.data.set b (GrowableCuckooFilter.entriesAt f b ++ [fp]),
                items := f.items + 1 },
       o) := by
  rw [GrowableCuckooFilter.try_insert.eq_def, if_neg hfull]

/-- Unfolding `try_insert` on a full bucket with budget left: evict a random
entry and recurse on it. -/
theorem try_insert_evict {f : GrowableCuckooFilter} {fp b : Nat} (t : Nat)
    (o : List Nat)
    (hfull : ¬ (GrowableCuckooFilter.entriesAt f b).length < f.entries_per_bucket) :
    f.try_insert fp b (t + 1) o =
      (GrowableCuckooFilter.evictAt f fp b
          (o.headD 0 % (GrowableCuckooFilter.entriesAt f b).length)).try_insert
        ((GrowableCuckooFilter.entriesAt f b).getD
          (o.headD 0 % (GrowableCuckooFilter.entriesAt f b).length) 0)
        ((GrowableCuckooFilter.evictAt f fp b
            (o.headD 0 % (GrowableCuckooFilter.entriesAt f b).length)).flip_bucket
          ((GrowableCuckooFilter.entriesAt f b).getD
            (o.headD 0 % (GrowableCuckooFilter.entriesAt f b).length) 0)
          b)
        t o.tail := by
  rw [GrowableCuckooFilter.try_insert.eq_def, if_neg hfull]

/-- Lemma: `try_insert` always succeeds, never shrinks the per-bucket bound, and
preserves the bucket count, the column count and the width invariant. -/
theorem try_insert_spec (tries : Nat) :
    ∀ (f : GrowableCuckooFilter) (fp b : Nat) (o : List Nat),
      ∃ f2 o2,
        f.try_insert fp b tries o = (.Success, f2, o2) ∧
        f2.buckets = f.buckets ∧
        f2.data.length = f.data.length ∧
        f.entries_per_bucket ≤ f2.entries_per_bucket ∧
        ((∀ l ∈ f.data, l.length ≤ f.entries_per_bucket) →
          ∀ l ∈ f2.data, l.length ≤ f2.entries_per_bucket) := by
  induction tries with
  | zero =>
    intro f fp b o
    by_cases hroom : (f.entriesAt b).length < f.entries_per_bucket
    · refine ⟨_, _, try_insert_room 0 o hroom, rfl, List.length_set _ _ _,
        le_refl _, ?_⟩
      intro hwf l hl
      rcases List.mem_or_eq_of_mem_set hl with h | h
      · exact hwf l h
      · subst h
        simp only [List.length_append, List.length_singleton]
        omega
    · refine ⟨_, _, try_insert_grow o hroom, rfl, List.length_set _ _ _,
        Nat.le_succ _, ?_⟩
      intro hwf l hl
      have hentries : (f.entriesAt b).length ≤ f.entries_per_bucket := by
        rcases getD_nil_mem_or_eq f.data b with h | h
        · exact hwf _ h
        · rw [GrowableCuckooFilter.entriesAt, h]; exact Nat.zero_le _
      rcases List.mem_or_eq_of_mem_set hl with h | h
      · exact le_trans (hwf l h) (Nat.le_succ _)
      · subst h
        simp only [List.length_append, List.length_singleton]
        omega
  | succ t ih =>
    intro f fp b o
    by_cases hroom : (f.entriesAt b).length < f.entries_per_bucket
    · refine ⟨_, _, try_insert_room (t + 1) o hroom, rfl, List.length_set _ _ _,
        le_refl _, ?_⟩
      intro hwf l hl
      rcases List.mem_or_eq_of_mem_set hl with h | h
      · exact hwf l h
      · subst h
        simp only [List.length_append, List.length_singleton]
        omega
    · obtain ⟨f2, o2, heq, hbk, hlen, hepb, hwfp⟩ :=
        ih (f.evictAt fp b (o.headD 0 % (f.entriesAt b).length))
          ((f.entriesAt b).getD (o.headD 0 % (f.entriesAt b).length) 0)
          ((f.evictAt fp b (o.headD 0 % (f.entriesAt b).length)).flip_bucket
            ((f.entriesAt b).getD (o.headD 0 % (f.entriesAt b).length) 0) b)
          o.tail
      refine ⟨f2, o2, by rw [try_insert_evict t o hroom]; exact heq, hbk, ?_, hepb, ?_⟩
      · rw [hlen]
        exact List.length_set _ _ _
      · intro hwf
        apply hwfp
        intro l hl
        rcases List.mem_or_eq_of_mem_set hl with h | h
        · exact hwf l h
        · subst h
          rw [List.length_set]
          rcases getD_nil_mem_or_eq f.data b with h | h
          · exact hwf _ h
          · rw [GrowableCuckooFilter.entriesAt, h]; exact Nat.zero_le _

/-- Claim C8 — confirmed.  For every filter state, every key and every
eviction oracle, `GrowableCuckooFilter::insert` returns `Success` or
`Duplicate`, never `Rejected`; and whenever the eviction budget is exhausted
on a full bucket, `try_insert` grows the width by one and places the pending
fingerprint. -/
theorem growable_filter_always_accepts (f : GrowableCuckooFilter) (key : Nat)
    (oracle : List Nat) :
    ((f.insert key oracle).1 = .Success ∨ (f.insert key oracle).1 = .Duplicate) ∧
    ∀ (fp b : Nat) (o2 : List Nat),
      ¬ (f.entriesAt b).length < f.entries_per_bucket →
      f.try_insert fp b 0 o2 =
        (.Success,
         { f with entries_per_bucket := f.entries_per_bucket + 1,
                  data := f.data.set b (f.entriesAt b ++ [fp]),
                  items := f.items + 1 },
         o2) := by
  constructor
  · simp only [GrowableCuckooFilter.insert]
    by_cases hdup :
        (f.find_in_bucket (fingerprint key) (f.bucket key (fingerprint key)) ||
          f.find_in_bucket (fingerprint key)
            (f.flip_bucket (fingerprint key) (f.bucket key (fingerprint key)))) = true
    · rw [if_pos hdup]
      right
      rfl
    · rw [if_neg hdup]
      by_cases hother :
          (f.entriesAt (f.flip_bucket (fingerprint key) (f.bucket key (fingerprint key)))).length <
            f.entries_per_bucket
      · rw [if_pos hother]
        obtain ⟨f2, os2, heq, -⟩ := try_insert_spec 63 f (fingerprint key) _ oracle
        rw [heq]
        left
        rfl
      · rw [if_neg hother]
        obtain ⟨f2, os2, heq, -⟩ := try_insert_spec 63 f (fingerprint key) _ oracle
        rw [heq]
        left
        rfl
  · exact fun fp b o2 hfull => try_insert_grow o2 hfull

/-- Witness for C8: any insert on a width-1 filter whose bucket `0` holds the
fingerprint `5`, and the grow step of `try_insert` on its full bucket `0`
with the budget exhausted. -/
theorem growable_filter_always_accepts_witness :
    (((GrowableCuckooFilter.mk [[5]] 1 1 1).insert 0 []).1 = .Success ∨
      ((GrowableCuckooFilter.mk [[5]] 1 1 1).insert 0 []).1 = .Duplicate) ∧
    (GrowableCuckooFilter.mk [[5]] 1 1 1).try_insert 7 0 0 [] =
      (.Success,
       { GrowableCuckooFilter.mk [[5]] 1 1 1 with
          entries_per_bucket := (GrowableCuckooFilter.mk [[5]] 1 1 1).entries_per_bucket + 1,
          data := (GrowableCuckooFilter.mk [[5]] 1 1 1).data.set 0
            ((GrowableCuckooFilter.mk [[5]] 1 1 1).entriesAt 0 ++ [7]),
          items := (GrowableCuckooFilter.mk [[5]] 1 1 1).items + 1 },
       []) :=
  ⟨(growable_filter_always_accepts (GrowableCuckooFilter.mk [[5]] 1 1 1) 0 []).1,
   (growable_filter_always_accepts (GrowableCuckooFilter.mk [[5]] 1 1 1) 0 []).2
     7 0 [] (by decide)⟩

/-- Claim C6 — counterexample.  Insert key `0` into a fresh 10-bucket
builder: every bucket is empty (so the claim's tie rule demands the target
`b1 = hash64(k) mod N = 3`), yet the fingerprint is stored in bucket `9` and
both the claimed primary `3` and the claimed (wrapping-subtraction) partner
`6` stay empty. -/
theorem builder_target_bucket_counterexample :
    hash 0 % 10 = 3 ∧
    flip_bucket (fingerprint 0) (hash 0 % 10) 10 = 6 ∧
    (∀ b ∈ (GrowableCuckooFilter.new 10).data, b = []) ∧
    ((GrowableCuckooFilter.new 10).insert 0 []).2.1.data.getD 3 [] = [] ∧
    ((GrowableCuckooFilter.new 10).insert 0 []).2.1.data.getD 6 [] = [] ∧
    ((GrowableCuckooFilter.new 10).insert 0 []).2.1.data.getD 9 [] = [fingerprint 0] := by
  refine ⟨by decide, by decide, ?_, by decide, by decide, by decide⟩
  decide

/-- Claim C6 — amended.  The builder computes the primary bucket with the
XOR fold and inserts into the *partner* bucket whenever it has room — also
when the primary has room (ties go to the partner, not the primary). -/
theorem insert_prefers_partner (f : GrowableCuckooFilter) (key : Nat)
    (oracle : List Nat)
    (hd1 : f.find_in_bucket (fingerprint key) (f.bucket key (fingerprint key)) = false)
    (hd2 : f.find_in_bucket (fingerprint key)
      (f.flip_bucket (fingerprint key) (f.bucket key (fingerprint key))) = false)
    (hroom :
      (f.entriesAt (f.flip_bucket (fingerprint key) (f.bucket key (fingerprint key)))).length <
      f.entries_per_bucket) :
    f.insert key oracle =
      (.Success,
       { f with
          data := f.data.set
            (f.flip_bucket (fingerprint key) (f.bucket key (fingerprint key)))
            (f.entriesAt (f.flip_bucket (fingerprint key) (f.bucket key (fingerprint key))) ++
              [fingerprint key]),
          items := f.items + 1 },
       oracle) := by
  simp only [GrowableCuckooFilter.insert]
  rw [hd1, hd2]
  simp only [Bool.or_self, Bool.false_eq_true, if_false]
  rw [if_pos hroom, try_insert_room 63 oracle hroom]

/-- Witness for the amended C6: fresh 10-bucket filter, key `0`; the
fingerprint is appended to partner bucket `9`. -/
theorem insert_prefers_partner_witness :
    (GrowableCuckooFilter.new 10).insert 0 [] =
      (.Success,
       { GrowableCuckooFilter.new 10 with
          data := (GrowableCuckooFilter.new 10).data.set
            ((GrowableCuckooFilter.new 10).flip_bucket (fingerprint 0)
              ((GrowableCuckooFilter.new 10).bucket 0 (fingerprint 0)))
            ((GrowableCuckooFilter.new 10).entriesAt
              ((GrowableCuckooFilter.new 10).flip_bucket (fingerprint 0)
                ((GrowableCuckooFilter.new 10).bucket 0 (fingerprint 0))) ++
              [fingerprint 0]),
          items := (GrowableCuckooFilter.new 10).items + 1 },
       []) :=
  insert_prefers_partner (GrowableCuckooFilter.new 10) 0 [] (by decide) (by decide)
    (by decide)

/-! ## Claim C1: the query path misses inserted keys (insert and query use
different bucket maps) -/

/-- Claim C1 — the code has a bug.  With 10 buckets, key `0` is inserted
into the single partition `0`: the builder stores `fingerprint 0` in bucket
`9` (XOR bucket algebra of `growable.rs`), but `CuckooIndex::query` searches
buckets `3` and `6` (`bucket`/`flip_bucket` of `cuckoo/mod.rs`), so the
query result is empty — a false negative on an inserted key, contradicting
the spec and the repository's own tests. -/
theorem query_misses_inserted_key :
    fingerprint 0 ≠ 0 ∧
    (((CuckooIndex.new Nat 10).add [0] 0 []).buckets.getD 9 []).getD 0 0 =
      fingerprint 0 ∧
    PartitionIndex.bucket 0 10 = 3 ∧
    flip_bucket (fingerprint 0) 3 10 = 6 ∧
    ((CuckooIndex.new Nat 10).add [0] 0 []).query 0 = [] := by
  refine ⟨by decide, by decide, by decide, by decide, by decide⟩

/-! ## Claim C3: tombstones suppress only the in-memory generation -/

/-- Everything the manifest scan emits is the identifier of an *active*
manifest entry. -/
theorem queryScan_mem {P : Type} (x : P) :
    ∀ (ps : List (PartitionInfo P)) (c1 c2 : List Nat) (fp pos : Nat),
      x ∈ queryScan ps c1 c2 fp pos →
      ∃ q ∈ ps, q.active = true ∧ q.partition = x := by
  intro ps
  induction ps with
  | nil => intro c1 c2 fp pos h; simp [queryScan] at h
  | cons p rest ih =>
    intro c1 c2 fp pos h
    rw [queryScan] at h
    rcases List.mem_append.mp h with h | h
    · by_cases hact : p.active
      · rw [if_pos hact] at h
        obtain ⟨l, -, hsome⟩ := List.mem_filterMap.mp h
        refine ⟨p, List.mem_cons_self .., by simp [hact], ?_⟩
        by_cases hc : c1.getD (pos + l) 0 = fp ∨ c2.getD (pos + l) 0 = fp
        · rw [if_pos hc] at hsome
          exact Option.some.inj hsome
        · rw [if_neg hc] at hsome
          exact absurd hsome (by simp)
      · rw [if_neg hact] at h
        exact absurd h (by simp)
    · obtain ⟨q, hq, hrest⟩ := ih c1 c2 fp _ h
      exact ⟨q, List.mem_cons_of_mem _ hq, hrest⟩

/-- Claim C3 — amended.  `PersistentIndex::remove` tombstones only the
in-memory generation: the persisted manifest (`data`) is untouched, and the
in-memory query never returns the removed partition afterwards.  (The
counterexample shows a persisted partition is still returned.) -/
theorem remove_tombstones_in_memory_only {P : Type} [DecidableEq P]
    (s : PersistentIndex P) (p : P) (k : Nat) :
    (s.remove p).data = s.data ∧ p ∉ ((s.remove p).mem_index.query k) := by
  refine ⟨rfl, ?_⟩
  intro hmem
  rw [PersistentIndex.remove] at hmem
  simp only [CuckooIndex.query] at hmem
  obtain ⟨q, hq, hact, hpart⟩ := queryScan_mem p _ _ _ _ _ hmem
  rw [CuckooIndex.remove] at hq
  obtain ⟨q0, -, hq0⟩ := List.mem_map.mp hq
  by_cases h0 : q0.partition = p
  · rw [if_pos h0] at hq0
    rw [← hq0] at hact
    exact absurd hact (by simp)
  · rw [if_neg h0] at hq0
    rw [← hq0] at hpart
    exact h0 hpart

/-- Claim C3 — counterexample.  `N = 1`: add partition `7` with key `0`,
persist, then `remove 7`; querying key `0` still returns `7`, because the
tombstone never reaches the persisted manifest. -/
theorem removed_persisted_partition_still_returned :
    7 ∈ PersistentIndex.query
        ((PersistentIndex.persist ((PersistentIndex.try_new Nat 1).add [0] 7 [])
          (PersistentIndex.freshFs Nat 1)).1.remove 7)
        (PersistentIndex.persist ((PersistentIndex.try_new Nat 1).add [0] 7 [])
          (PersistentIndex.freshFs Nat 1)).2 0 := by
  decide

/-! ## Claim C5: persist writes the manifest in place, with no tmp file and
no rename -/

/-- No operation of `persist` touches `partitions.data.tmp` or performs a
rename. -/
theorem persistOps_no_tmp {P : Type} (s : PersistentIndex P) :
    (persistOps s).any touchesTmpOrRename = false := by
  rw [List.any_eq_false]
  intro x hx
  rw [persistOps] at hx
  rcases List.mem_cons.mp hx with h | h
  · subst h; simp [touchesTmpOrRename]
  · rcases List.mem_append.mp h with h | h
    · rw [List.mapIdx_eq_enum_map] at h
      obtain ⟨⟨i, b⟩, -, hx⟩ := List.mem_map.mp h
      rw [← hx]
      simp [Function.uncurry, touchesTmpOrRename]
    · rcases List.mem_singleton.mp h with rfl
      simp [touchesTmpOrRename]

/-- Claim C5 — counterexample.  On a concrete non-empty index, the operation
trace of `persist` contains neither a write of `partitions.data.tmp` nor a
rename: the manifest is written directly in place, so the claimed
atomic-replace protocol does not exist in the code. -/
theorem persist_no_tmp_rename_counterexample :
    (persistOps ((PersistentIndex.try_new Nat 2).add [0] 5 [])).any
      touchesTmpOrRename = false := by
  decide

/-- Claim C5 — amended.  `persist` appends the bucket files and then writes
the manifest directly (no tmp file, no rename).  An I/O failure during
directory creation or a bucket append aborts with the manifest unchanged and
the in-memory generation retained; a failure at the manifest write itself
finds the generation already folded into the persistent state (mem reset),
so it is not retained for retry. -/
theorem persist_writes_manifest_in_place {P : Type} (s : PersistentIndex P)
    (fs : FileSystem P) (j : Nat) (hj : j ≤ s.mem_index.buckets.length) :
    (persistOps s).any touchesTmpOrRename = false ∧
    (∃ fs2, persistWithFailure s fs (some j) = .error (s, fs2) ∧
      fs2.manifest = fs.manifest) ∧
    (∀ s2 fs2,
      persistWithFailure s fs (some (s.mem_index.buckets.length + 1)) =
        .error (s2, fs2) →
      s2.mem_index = CuckooIndex.new P s.data.num_buckets ∧
      s2.data.partitions = s.data.partitions ++ s.mem_index.partitions ∧
      fs2.manifest = fs.manifest) := by
  refine ⟨persistOps_no_tmp s, ?_, ?_⟩
  · simp only [persistWithFailure]
    by_cases h0 : j = 0
    · rw [if_pos h0]
      exact ⟨fs, rfl, rfl⟩
    · rw [if_neg h0, if_pos hj]
      exact ⟨_, rfl, rfl⟩
  · intro s2 fs2 heq
    simp only [persistWithFailure] at heq
    rw [if_neg (by omega), if_neg (by omega)] at heq
    obtain ⟨hs, hfs⟩ := Prod.mk.inj (Except.error.inj heq)
    rw [← hs, ← hfs]
    exact ⟨rfl, rfl, rfl⟩

/-- Witness for the amended C5 at a concrete index and failure point. -/
theorem persist_writes_manifest_in_place_witness :
    (persistOps (PersistentIndex.try_new Nat 2)).any touchesTmpOrRename = false ∧
    (∃ fs2,
      persistWithFailure (PersistentIndex.try_new Nat 2)
        (PersistentIndex.freshFs Nat 2) (some 1) = .error
          (PersistentIndex.try_new Nat 2, fs2) ∧
      fs2.manifest = (PersistentIndex.freshFs Nat 2).manifest) ∧
    (∀ s2 fs2,
      persistWithFailure (PersistentIndex.try_new Nat 2)
        (PersistentIndex.freshFs Nat 2)
        (some ((PersistentIndex.try_new Nat 2).mem_index.buckets.length + 1)) =
        .error (s2, fs2) →
      s2.mem_index = CuckooIndex.new Nat 2 ∧
      s2.data.partitions = [] ++ [] ∧
      fs2.manifest = (PersistentIndex.freshFs Nat 2).manifest) :=
  persist_writes_manifest_in_place (PersistentIndex.try_new Nat 2)
    (PersistentIndex.freshFs Nat 2) 1 (by decide)

/-! ## Preservation of the stride invariants (claim C7) -/

theorem totalWidth_append {P : Type} (ps qs : List (PartitionInfo P)) :
    totalWidth (ps ++ qs) = totalWidth ps + totalWidth qs := by
  simp [totalWidth, List.sum_append]

theorem totalWidth_tombstone {P : Type} [DecidableEq P]
    (ps : List (PartitionInfo P)) (p : P) :
    totalWidth (ps.map fun q =>
      if q.partition = p then { q with active := false } else q) = totalWidth ps := by
  induction ps with
  | nil => rfl
  | cons q rest ih =>
    simp only [List.map_cons, totalWidth, List.map, List.sum_cons] at ih ⊢
    by_cases hq : q.partition = p
    · rw [if_pos hq]
      exact congrArg (_ + ·) ih
    · rw [if_neg hq]
      exact congrArg (_ + ·) ih

/-- Lemma: `insert` preserves the bucket count, the column count and the width
invariant, and never shrinks the width. -/
theorem insert_preserves (f : GrowableCuckooFilter) (key : Nat) (o : List Nat) :
    (f.insert key o).2.1.buckets = f.buckets ∧
    (f.insert key o).2.1.data.length = f.data.length ∧
    f.entries_per_bucket ≤ (f.insert key o).2.1.entries_per_bucket ∧
    (f.WfData → (f.insert key o).2.1.WfData) := by
  simp only [GrowableCuckooFilter.insert]
  by_cases hdup :
      (f.find_in_bucket (fingerprint key) (f.bucket key (fingerprint key)) ||
        f.find_in_bucket (fingerprint key)
          (f.flip_bucket (fingerprint key) (f.bucket key (fingerprint key)))) = true
  · rw [if_pos hdup]
    exact ⟨rfl, rfl, le_refl _, id⟩
  · rw [if_neg hdup]
    by_cases hother :
        (f.entriesAt (f.flip_bucket (fingerprint key) (f.bucket key (fingerprint key)))).length <
          f.entries_per_bucket
    · rw [if_pos hother]
      obtain ⟨f2, o2, heq, hb, hl, he, hw⟩ := try_insert_spec 63 f (fingerprint key) _ o
      rw [heq]
      exact ⟨hb, hl, he, hw⟩
    · rw [if_neg hother]
      obtain ⟨f2, o2, heq, hb, hl, he, hw⟩ := try_insert_spec 63 f (fingerprint key) _ o
      rw [heq]
      exact ⟨hb, hl, he, hw⟩

/-- The builder fold of `index_single_partition` preserves the filter
invariants. -/
theorem foldl_insert_preserves (values : List Nat) :
    ∀ st : GrowableCuckooFilter × List Nat,
      ((values.foldl
        (fun acc v => ((acc.1.insert v acc.2).2.1, (acc.1.insert v acc.2).2.2))
        st).1.buckets = st.1.buckets) ∧
      ((values.foldl
        (fun acc v => ((acc.1.insert v acc.2).2.1, (acc.1.insert v acc.2).2.2))
        st).1.data.length = st.1.data.length) ∧
      (st.1.entries_per_bucket ≤
        (values.foldl
          (fun acc v => ((acc.1.insert v acc.2).2.1, (acc.1.insert v acc.2).2.2))
          st).1.entries_per_bucket) ∧
      (st.1.WfData →
        (values.foldl
          (fun acc v => ((acc.1.insert v acc.2).2.1, (acc.1.insert v acc.2).2.2))
          st).1.WfData) := by
  induction values with
  | nil => exact fun st => ⟨rfl, rfl, le_refl _, id⟩
  | cons v vs ih =>
    intro st
    obtain ⟨hb, hl, he, hw⟩ :=
      ih ((st.1.insert v st.2).2.1, (st.1.insert v st.2).2.2)
    obtain ⟨gb, gl, ge, gw⟩ := insert_preserves st.1 v st.2
    exact ⟨by rw [List.foldl_cons, hb]; exact gb,
           by rw [List.foldl_cons, hl]; exact gl,
           by rw [List.foldl_cons]; exact le_trans ge he,
           by rw [List.foldl_cons]; exact fun h => hw (gw h)⟩

/-- The per-partition builder produces `N` bucket lists, each at most the
advertised width long, with width at least 1. -/
theorem index_single_partition_spec {P : Type} (idx : CuckooIndex P)
    (values oracle : List Nat) :
    (idx.index_single_partition values oracle).buckets = idx.buckets.length ∧
    (idx.index_single_partition values oracle).data.length = idx.buckets.length ∧
    1 ≤ (idx.index_single_partition values oracle).entries_per_bucket ∧
    (idx.index_single_partition values oracle).WfData := by
  simp only [CuckooIndex.index_single_partition]
  obtain ⟨hb, hl, he, hw⟩ :=
    foldl_insert_preserves values (GrowableCuckooFilter.new idx.buckets.length, oracle)
  refine ⟨hb, by rw [hl]; exact List.length_replicate _ _, he, hw ?_⟩
  intro l hl2
  rcases (List.mem_replicate.mp hl2).2 with rfl
  exact Nat.zero_le _

/-- Lemma: `CuckooIndex::add` preserves the stride invariant, keeps the bucket
count, and grows the stride by the builder width. -/
theorem add_wf {P : Type} (idx : CuckooIndex P) (values : List Nat) (part : P)
    (oracle : List Nat) (h : idx.Wf) :
    (idx.add values part oracle).Wf ∧
    (idx.add values part oracle).buckets.length = idx.buckets.length ∧
    (idx.add values part oracle).slots =
      idx.slots + (idx.index_single_partition values oracle).entries_per_bucket := by
  obtain ⟨hsb, hsl, hse, hsw⟩ := index_single_partition_spec idx values oracle
  obtain ⟨hlen, hslots⟩ := h
  refine ⟨⟨?_, ?_⟩, ?_, rfl⟩
  · intro b hb
    simp only [CuckooIndex.add, GrowableCuckooFilter.drain] at hb ⊢
    obtain ⟨i, hi, rfl⟩ := List.mem_iff_getElem.mp hb
    rw [List.getElem_zipWith]
    have hil : i < (idx.index_single_partition values oracle).data.length := by
      rw [List.length_zipWith] at hi
      omega
    have hib : i < idx.buckets.length := by
      rw [List.length_zipWith] at hi
      omega
    have hbl : idx.buckets[i].length = idx.slots :=
      hlen _ (idx.buckets.getElem_mem hib)
    have hdl : (idx.index_single_partition values oracle).data[i].length ≤
        (idx.index_single_partition values oracle).entries_per_bucket :=
      hsw _ (((idx.index_single_partition values oracle).data).getElem_mem hil)
    by_cases hlt :
        (idx.buckets[i] ++ (idx.index_single_partition values oracle).data[i]).length <
          idx.slots + (idx.index_single_partition values oracle).entries_per_bucket
    · rw [if_pos hlt]
      rw [List.length_append, List.length_append, List.length_replicate]
      rw [List.length_append] at hlt
      omega
    · rw [if_neg hlt]
      rw [List.length_append] at hlt ⊢
      omega
  · simp only [CuckooIndex.add, totalWidth_append]
    rw [← hslots]
    simp [totalWidth]
  · simp only [CuckooIndex.add, GrowableCuckooFilter.drain]
    rw [List.length_zipWith, hsl]
    omega

/-- Length of one padded builder column (`add_many` inner loop). -/
theorem padTo_length (w : Nat) (l : List Nat) (h : l.length ≤ w) :
    (CuckooIndex.padTo w l).length = w := by
  rw [CuckooIndex.padTo, List.length_append, List.length_replicate]
  omega

/-- Lemma: `CuckooIndex::add_many` preserves the stride invariant and the bucket
count. -/
theorem add_many_wf {P : Type} (idx : CuckooIndex P)
    (batch : List (P × List Nat × List Nat)) (h : idx.Wf) :
    (idx.add_many batch).Wf ∧
    (idx.add_many batch).buckets.length = idx.buckets.length := by
  obtain ⟨hlen, hslots⟩ := h
  have hflat : ∀ i : Nat,
      ((batch.map fun b => (b.1, idx.index_single_partition b.2.1 b.2.2)).map fun f =>
        CuckooIndex.padTo f.2.entries_per_bucket (f.2.data.getD i [])).flatten.length =
      ((batch.map fun b => (b.1, idx.index_single_partition b.2.1 b.2.2)).map fun f =>
        f.2.entries_per_bucket).sum := by
    intro i
    rw [List.length_flatten, List.map_map, List.map_map]
    congr 1
    rw [List.map_map]
    apply List.map_congr_left
    intro b hb
    simp only [Function.comp]
    apply padTo_length
    obtain ⟨-, -, -, hw⟩ := index_single_partition_spec idx b.2.1 b.2.2
    rcases getD_nil_mem_or_eq (idx.index_single_partition b.2.1 b.2.2).data i with hm | hm
    · exact hw _ hm
    · rw [hm]
      exact Nat.zero_le _
  refine ⟨⟨?_, ?_⟩, ?_⟩
  · intro b hb
    simp only [CuckooIndex.add_many] at hb ⊢
    obtain ⟨i, hi, rfl⟩ := List.mem_iff_getElem.mp hb
    rw [List.getElem_mapIdx]
    rw [List.length_append]
    have hib : i < idx.buckets.length := by
      rw [List.length_mapIdx] at hi
      exact hi
    rw [hlen _ (idx.buckets.getElem_mem hib), hflat i]
  · simp only [CuckooIndex.add_many, totalWidth_append]
    rw [← hslots]
    have : totalWidth ((batch.map fun b =>
        (b.1, idx.index_single_partition b.2.1 b.2.2)).map fun f =>
        (⟨f.1, f.2.entries_per_bucket, true, f.2.elements⟩ : PartitionInfo P)) =
        ((batch.map fun b => (b.1, idx.index_single_partition b.2.1 b.2.2)).map fun f =>
          f.2.entries_per_bucket).sum := by
      rw [totalWidth, List.map_map]
      rfl
    rw [this]
  · simp only [CuckooIndex.add_many]
    exact List.length_mapIdx

/-- Lemma: `CuckooIndex::remove` preserves the stride invariant and the bucket
count. -/
theorem remove_wf {P : Type} [DecidableEq P] (idx : CuckooIndex P) (p : P)
    (h : idx.Wf) :
    (idx.remove p).Wf ∧ (idx.remove p).buckets.length = idx.buckets.length := by
  obtain ⟨hlen, hslots⟩ := h
  exact ⟨⟨hlen, by rw [CuckooIndex.remove]; simpa [totalWidth_tombstone] using hslots⟩, rfl⟩

/-- The joint invariant holds in the initial state. -/
theorem inv_init (P : Type) (buckets : Nat) (hb : 0 < buckets) :
    Inv (PersistentIndex.try_new P buckets) (PersistentIndex.freshFs P buckets) := by
  refine ⟨hb, List.length_replicate _ _, List.length_replicate _ _, ⟨?_, rfl⟩, ?_, ?_⟩
  · intro b hb2
    rcases (List.mem_replicate.mp hb2).2 with rfl
    rfl
  · intro f hf
    rcases (List.mem_replicate.mp hf).2 with rfl
    rfl
  · exact Or.inr ⟨rfl, rfl⟩

/-- The joint invariant is preserved by in-memory mutations. -/
theorem inv_mem_step {P : Type} [DecidableEq P] {s : PersistentIndex P}
    {fs : FileSystem P} {m2 : CuckooIndex P} (h : Inv s fs)
    (hm : MemOp P s.mem_index m2) :
    Inv (⟨s.data, m2⟩ : PersistentIndex P) fs := by
  obtain ⟨hnb, hml, hfl, hmw, hstr, hman⟩ := h
  cases hm with
  | add values part oracle =>
    obtain ⟨hwf, hblen, -⟩ := add_wf s.mem_index values part oracle hmw
    exact ⟨hnb, by rw [hblen]; exact hml, hfl, hwf, hstr, hman⟩
  | add_many batch =>
    obtain ⟨hwf, hblen⟩ := add_many_wf s.mem_index batch hmw
    exact ⟨hnb, by rw [hblen]; exact hml, hfl, hwf, hstr, hman⟩
  | remove p =>
    obtain ⟨hwf, hblen⟩ := remove_wf s.mem_index p hmw
    exact ⟨hnb, by rw [hblen]; exact hml, hfl, hwf, hstr, hman⟩

/-- The joint invariant is preserved by `persist`. -/
theorem inv_persist {P : Type} {s : PersistentIndex P} {fs : FileSystem P}
    (h : Inv s fs) :
    Inv (PersistentIndex.persist s fs).1 (PersistentIndex.persist s fs).2 := by
  obtain ⟨hnb, hml, hfl, ⟨hmb, hms⟩, hstr, hman⟩ := h
  refine ⟨hnb, List.length_replicate _ _, ?_, ⟨?_, rfl⟩, ?_, Or.inl rfl⟩
  · simp only [PersistentIndex.persist]
    rw [List.length_zipWith, hfl, hml]
    exact min_self _
  · intro b hb
    rcases (List.mem_replicate.mp hb).2 with rfl
    rfl
  · intro f hf
    simp only [PersistentIndex.persist] at hf ⊢
    obtain ⟨i, hi, rfl⟩ := List.mem_iff_getElem.mp hf
    rw [List.getElem_zipWith, List.length_append, totalWidth_append]
    have hif : i < fs.bucketFiles.length := by
      rw [List.length_zipWith] at hi
      omega
    have him : i < s.mem_index.buckets.length := by
      rw [List.length_zipWith] at hi
      omega
    rw [hstr _ (fs.bucketFiles.getElem_mem hif),
      hmb _ (s.mem_index.buckets.getElem_mem him), hms]

/-- The joint invariant is preserved by reloading from disk. -/
theorem inv_load {P : Type} {s : PersistentIndex P} {fs : FileSystem P}
    {s2 : PersistentIndex P} (h : Inv s fs)
    (hl : PersistentIndex.try_load_from_disk fs = some s2) :
    Inv s2 fs := by
  obtain ⟨hnb, hml, hfl, hmw, hstr, hman⟩ := h
  rcases hman with hman | ⟨hman, -⟩
  · rw [PersistentIndex.try_load_from_disk, hman] at hl
    rcases Option.some.inj hl with rfl
    refine ⟨hnb, List.length_replicate _ _, hfl, ⟨?_, rfl⟩, hstr, Or.inl hman⟩
    intro b hb
    rcases (List.mem_replicate.mp hb).2 with rfl
    rfl
  · rw [PersistentIndex.try_load_from_disk, hman] at hl
    exact absurd hl (by simp)

/-- Every reachable state satisfies the joint invariant. -/
theorem reachable_inv {P : Type} [DecidableEq P] {s : PersistentIndex P}
    {fs : FileSystem P} (h : Reachable P s fs) : Inv s fs := by
  induction h with
  | init buckets hb => exact inv_init P buckets hb
  | mem_step s fs m2 _ hm ih => exact inv_mem_step ih hm
  | persist_step s fs _ ih => exact inv_persist ih
  | load_step s fs s2 _ hl ih => exact inv_load ih hl

/-- Claim C7 — confirmed.  After any reachable sequence of operations, every
in-memory bucket column has exactly `slots` entries, `slots` is the total
width of the in-memory manifest, and every persisted bucket file holds
exactly `2 * (sum of persisted widths)` bytes. -/
theorem bucket_stride_invariant {P : Type} [DecidableEq P]
    (s : PersistentIndex P) (fs : FileSystem P) (h : Reachable P s fs) :
    (∀ b ∈ s.mem_index.buckets, b.length = s.mem_index.slots) ∧
    s.mem_index.slots = totalWidth s.mem_index.partitions ∧
    (∀ f ∈ fs.bucketFiles, fileBytes f = 2 * totalWidth s.data.partitions) := by
  obtain ⟨-, -, -, ⟨hmb, hms⟩, hstr, -⟩ := reachable_inv h
  exact ⟨hmb, hms, fun f hf => by rw [fileBytes, hstr f hf]⟩

/-- Witness for C7: one `add` on a fresh one-bucket index. -/
theorem bucket_stride_invariant_witness :
    (∀ b ∈ (⟨(PersistentIndex.try_new Nat 1).data,
        (PersistentIndex.try_new Nat 1).mem_index.add [0] 5 []⟩ :
        PersistentIndex Nat).mem_index.buckets,
      b.length = (⟨(PersistentIndex.try_new Nat 1).data,
        (PersistentIndex.try_new Nat 1).mem_index.add [0] 5 []⟩ :
        PersistentIndex Nat).mem_index.slots) ∧
    (⟨(PersistentIndex.try_new Nat 1).data,
      (PersistentIndex.try_new Nat 1).mem_index.add [0] 5 []⟩ :
      PersistentIndex Nat).mem_index.slots =
      totalWidth (⟨(PersistentIndex.try_new Nat 1).data,
        (PersistentIndex.try_new Nat 1).mem_index.add [0] 5 []⟩ :
        PersistentIndex Nat).mem_index.partitions ∧
    (∀ f ∈ (PersistentIndex.freshFs Nat 1).bucketFiles,
      fileBytes f = 2 * totalWidth (⟨(PersistentIndex.try_new Nat 1).data,
        (PersistentIndex.try_new Nat 1).mem_index.add [0] 5 []⟩ :
        PersistentIndex Nat).data.partitions) :=
  bucket_stride_invariant _ _
    (Reachable.mem_step _ _ _ (Reachable.init 1 (by decide))
      (MemOp.add _ [0] 5 []))


/-! ## Decomposing the manifest scan (claims C4 and C10) -/

theorem totalWidth_cons {P : Type} (p : PartitionInfo P)
    (ps : List (PartitionInfo P)) :
    totalWidth (p :: ps) = p.bucket_size + totalWidth ps := by
  simp [totalWidth]

/-- Scanning a concatenated manifest splits into the two scans, the second
starting at the accumulated stride. -/
theorem queryScan_append_parts {P : Type} (ps qs : List (PartitionInfo P))
    (c1 c2 : List Nat) (fp : Nat) :
    ∀ pos, queryScan (ps ++ qs) c1 c2 fp pos =
      queryScan ps c1 c2 fp pos ++ queryScan qs c1 c2 fp (pos + totalWidth ps) := by
  induction ps with
  | nil =>
    intro pos
    simp [queryScan, totalWidth]
  | cons p rest ih =>
    intro pos
    rw [List.cons_append, queryScan, queryScan, ih (pos + p.bucket_size),
      totalWidth_cons, List.append_assoc, ← Nat.add_assoc]

/-- A scan that stays inside the prefix of both columns ignores their
tails. -/
theorem queryScan_take_prefix {P : Type} (ps : List (PartitionInfo P))
    (c1 c2 t1 t2 : List Nat) (fp : Nat) :
    ∀ pos, pos + totalWidth ps ≤ c1.length → pos + totalWidth ps ≤ c2.length →
      queryScan ps (c1 ++ t1) (c2 ++ t2) fp pos = queryScan ps c1 c2 fp pos := by
  induction ps with
  | nil => intro pos h1 h2; rfl
  | cons p rest ih =>
    intro pos h1 h2
    rw [totalWidth_cons] at h1 h2
    rw [queryScan, queryScan, ih (pos + p.bucket_size) (by omega) (by omega)]
    congr 1
    by_cases hact : p.active
    · rw [if_pos hact, if_pos hact]
      apply List.filterMap_congr
      intro l hl
      have hlw : l < p.bucket_size := List.mem_range.mp hl
      rw [List.getD_append _ _ _ _ (by omega), List.getD_append _ _ _ _ (by omega)]
    · rw [if_neg hact, if_neg hact]

/-- A scan that starts past the common prefix of both columns reads only
their tails. -/
theorem queryScan_drop_prefix {P : Type} (ps : List (PartitionInfo P))
    (c1 c2 t1 t2 : List Nat) (fp : Nat) (hlen : c1.length = c2.length) :
    ∀ pos, queryScan ps (c1 ++ t1) (c2 ++ t2) fp (c1.length + pos) =
      queryScan ps t1 t2 fp pos := by
  induction ps with
  | nil => intro pos; rfl
  | cons p rest ih =>
    intro pos
    rw [queryScan, queryScan]
    have hstep : c1.length + pos + p.bucket_size = c1.length + (pos + p.bucket_size) := by
      omega
    rw [hstep, ih (pos + p.bucket_size)]
    congr 1
    by_cases hact : p.active
    · rw [if_pos hact, if_pos hact]
      apply List.filterMap_congr
      intro l hl
      have e1 : c1.length + pos + l = c1.length + (pos + l) := by omega
      have e2 : c1.length + pos + l = c2.length + (pos + l) := by omega
      rw [e1, List.getD_append_right _ _ _ _ (by omega), Nat.add_sub_cancel_left, ← e1,
        e2, List.getD_append_right _ _ _ _ (by omega), Nat.add_sub_cancel_left]
    · rw [if_neg hact, if_neg hact]

/-- Reading one column of zip-appended file sets splits pointwise. -/
theorem getD_zipWith_append (l1 l2 : List (List Nat)) (h : l1.length = l2.length)
    (i : Nat) :
    (List.zipWith (fun a b => a ++ b) l1 l2).getD i [] =
      l1.getD i [] ++ l2.getD i [] := by
  rcases Nat.lt_or_ge i l1.length with hi | hi
  · rw [List.getD_eq_getElem _ _ (by rw [List.length_zipWith]; omega),
      List.getElem_zipWith, List.getD_eq_getElem _ _ hi,
      List.getD_eq_getElem _ _ (by omega)]
  · rw [List.getD_eq_getElem?_getD, List.getElem?_eq_none (by rw [List.length_zipWith]; omega),
      List.getD_eq_getElem?_getD, List.getElem?_eq_none (by omega),
      List.getD_eq_getElem?_getD, List.getElem?_eq_none (by omega)]
    rfl

/-- Claim C4 — confirmed.  From any reachable state, `persist()` followed by
`try_load_from_disk()` yields an index answering every query exactly as the
original did (disk results of the old generations followed by what used to be
the in-memory results). -/
theorem persist_load_query_roundtrip {P : Type} [DecidableEq P]
    (s : PersistentIndex P) (fs : FileSystem P) (h : Reachable P s fs)
    (key : Nat) :
    ∃ s2, PersistentIndex.try_load_from_disk (PersistentIndex.persist s fs).2 = some s2 ∧
      PersistentIndex.query s2 (PersistentIndex.persist s fs).2 key =
        PersistentIndex.query s fs key := by
  obtain ⟨hnb, hml, hfl, ⟨hmb, hms⟩, hstr, -⟩ := reachable_inv h
  refine ⟨_, rfl, ?_⟩
  have hb1 : PartitionIndex.bucket key s.data.num_buckets < s.data.num_buckets :=
    Nat.mod_lt _ hnb
  have hb2 : flip_bucket (fingerprint key)
      (PartitionIndex.bucket key s.data.num_buckets) s.data.num_buckets <
      s.data.num_buckets :=
    Nat.mod_lt _ hnb
  have hf1 : ∀ i < s.data.num_buckets,
      (fs.bucketFiles.getD i []).length = totalWidth s.data.partitions := by
    intro i hi
    have : i < fs.bucketFiles.length := by omega
    rw [List.getD_eq_getElem _ _ this]
    exact hstr _ (fs.bucketFiles.getElem_mem this)
  have hm1 : ∀ i < s.data.num_buckets,
      (s.mem_index.buckets.getD i []).length = s.mem_index.slots := by
    intro i hi
    have : i < s.mem_index.buckets.length := by omega
    rw [List.getD_eq_getElem _ _ this]
    exact hmb _ (s.mem_index.buckets.getElem_mem this)
  have hdecomp : ∀ i,
      ((PersistentIndex.persist s fs).2.bucketFiles).getD i [] =
        fs.bucketFiles.getD i [] ++ s.mem_index.buckets.getD i [] := by
    intro i
    simp only [PersistentIndex.persist]
    exact getD_zipWith_append _ _ (by omega) i
  -- the in-memory query of the original, expressed over `num_buckets`
  have hmemq : s.mem_index.query key =
      queryScan s.mem_index.partitions
        (s.mem_index.buckets.getD (PartitionIndex.bucket key s.data.num_buckets) [])
        (s.mem_index.buckets.getD (flip_bucket (fingerprint key)
          (PartitionIndex.bucket key s.data.num_buckets) s.data.num_buckets) [])
        (fingerprint key) 0 := by
    simp only [CuckooIndex.query, hml]
  -- the right-hand side in scan form
  have hrhs : PersistentIndex.query s fs key =
      queryScan s.data.partitions
        (fs.bucketFiles.getD (PartitionIndex.bucket key s.data.num_buckets) [])
        (fs.bucketFiles.getD (flip_bucket (fingerprint key)
          (PartitionIndex.bucket key s.data.num_buckets) s.data.num_buckets) [])
        (fingerprint key) 0 ++
      queryScan s.mem_index.partitions
        (s.mem_index.buckets.getD (PartitionIndex.bucket key s.data.num_buckets) [])
        (s.mem_index.buckets.getD (flip_bucket (fingerprint key)
          (PartitionIndex.bucket key s.data.num_buckets) s.data.num_buckets) [])
        (fingerprint key) 0 := by
    rw [PersistentIndex.query, hmemq]
    congr 1
    rw [PersistentIndex.query_disk]
    by_cases hdp : s.data.partitions.isEmpty
    · rw [if_pos hdp]
      rcases List.isEmpty_iff.mp hdp with hnil
      rw [hnil]
      rfl
    · rw [if_neg hdp]
  -- the left-hand side in scan form
  have hlhs : PersistentIndex.query
      (⟨⟨s.data.num_buckets, s.mem_index.slots,
         s.data.partitions ++ s.mem_index.partitions⟩,
        CuckooIndex.new P s.data.num_buckets⟩ : PersistentIndex P)
      (PersistentIndex.persist s fs).2 key =
      queryScan (s.data.partitions ++ s.mem_index.partitions)
        ((PersistentIndex.persist s fs).2.bucketFiles.getD
          (PartitionIndex.bucket key s.data.num_buckets) [])
        ((PersistentIndex.persist s fs).2.bucketFiles.getD
          (flip_bucket (fingerprint key)
            (PartitionIndex.bucket key s.data.num_buckets) s.data.num_buckets) [])
        (fingerprint key) 0 := by
    rw [PersistentIndex.query]
    have hnewq : (CuckooIndex.new P s.data.num_buckets).query key = [] := rfl
    rw [hnewq, List.append_nil, PersistentIndex.query_disk]
    by_cases hall : (s.data.partitions ++ s.mem_index.partitions).isEmpty
    · rw [if_pos hall]
      rcases List.isEmpty_iff.mp hall with hnil
      rw [hnil]
      rfl
    · rw [if_neg hall]
  rw [hlhs, hrhs, hdecomp, hdecomp,
    queryScan_append_parts, Nat.zero_add]
  congr 1
  · exact queryScan_take_prefix _ _ _ _ _ _ 0
      (by rw [Nat.zero_add, hf1 _ hb1])
      (by rw [Nat.zero_add, hf1 _ hb2])
  · have hw : totalWidth s.data.partitions =
        (fs.bucketFiles.getD (PartitionIndex.bucket key s.data.num_buckets) []).length := by
      rw [hf1 _ hb1]
    rw [hw]
    have := queryScan_drop_prefix s.mem_index.partitions
      (fs.bucketFiles.getD (PartitionIndex.bucket key s.data.num_buckets) [])
      (fs.bucketFiles.getD (flip_bucket (fingerprint key)
        (PartitionIndex.bucket key s.data.num_buckets) s.data.num_buckets) [])
      (s.mem_index.buckets.getD (PartitionIndex.bucket key s.data.num_buckets) [])
      (s.mem_index.buckets.getD (flip_bucket (fingerprint key)
        (PartitionIndex.bucket key s.data.num_buckets) s.data.num_buckets) [])
      (fingerprint key) (by rw [hf1 _ hb1, hf1 _ hb2]) 0
    rw [← Nat.add_zero ((fs.bucketFiles.getD
      (PartitionIndex.bucket key s.data.num_buckets) []).length)]
    exact this

/-- Witness for C4: a reachable one-bucket index holding one partition. -/
theorem persist_load_query_roundtrip_witness :
    ∃ s2, PersistentIndex.try_load_from_disk
        (PersistentIndex.persist
          (⟨(PersistentIndex.try_new Nat 1).data,
            (PersistentIndex.try_new Nat 1).mem_index.add [0] 5 []⟩ : PersistentIndex Nat)
          (PersistentIndex.freshFs Nat 1)).2 = some s2 ∧
      PersistentIndex.query s2
        (PersistentIndex.persist
          (⟨(PersistentIndex.try_new Nat 1).data,
            (PersistentIndex.try_new Nat 1).mem_index.add [0] 5 []⟩ : PersistentIndex Nat)
          (PersistentIndex.freshFs Nat 1)).2 0 =
      PersistentIndex.query
        (⟨(PersistentIndex.try_new Nat 1).data,
          (PersistentIndex.try_new Nat 1).mem_index.add [0] 5 []⟩ : PersistentIndex Nat)
        (PersistentIndex.freshFs Nat 1) 0 :=
  persist_load_query_roundtrip _ _
    (Reachable.mem_step _ _ _ (Reachable.init 1 (by decide)) (MemOp.add _ [0] 5 [])) 0

/-! ## Claim C10: adding an empty partition -/

theorem index_single_partition_nil {P : Type} (idx : CuckooIndex P)
    (oracle : List Nat) :
    idx.index_single_partition [] oracle =
      GrowableCuckooFilter.new idx.buckets.length := rfl

/-- Claim C10 — confirmed (for the state right after the add).  Adding a
partition from an empty key iterator appends a manifest entry of width 1
(the builder's initial `entries_per_bucket`) with `elements = 0`, grows the
stride by one, pads every bucket column with a single zero slot, and the new
partition is never returned by `query`, whose matches are against a non-zero
fingerprint. -/
theorem add_empty_partition {P : Type} [DecidableEq P] (m : CuckooIndex P)
    (p : P) (oracle : List Nat) (k : Nat) (hwf : m.Wf)
    (hfresh : ∀ q ∈ m.partitions, q.partition ≠ p)
    (hfp : fingerprint k ≠ 0) :
    (m.add [] p oracle).partitions = m.partitions ++ [⟨p, 1, true, 0⟩] ∧
    (m.add [] p oracle).slots = m.slots + 1 ∧
    (∀ b ∈ (m.add [] p oracle).buckets, b.length = m.slots + 1) ∧
    p ∉ (m.add [] p oracle).query k := by
  obtain ⟨hmb, hms⟩ := hwf
  obtain ⟨⟨hwb, -⟩, -, hslots⟩ := add_wf m [] p oracle ⟨hmb, hms⟩
  have hparts : (m.add [] p oracle).partitions = m.partitions ++ [⟨p, 1, true, 0⟩] := rfl
  have hsl : (m.add [] p oracle).slots = m.slots + 1 := rfl
  have hbucketseq : (m.add [] p oracle).buckets =
      List.zipWith
        (fun pv bucket =>
          if (bucket ++ pv).length < m.slots + 1 then
            (bucket ++ pv) ++ List.replicate ((m.slots + 1) - (bucket ++ pv).length) 0
          else bucket ++ pv)
        (List.replicate m.buckets.length []) m.buckets := rfl
  have hcol : ∀ i, i < m.buckets.length →
      (m.add [] p oracle).buckets.getD i [] = m.buckets.getD i [] ++ [0] := by
    intro i hib
    rw [hbucketseq,
      List.getD_eq_getElem _ _ (by rw [List.length_zipWith, List.length_replicate]; omega)]
    simp only [List.getElem_zipWith, List.getElem_replicate, List.append_nil]
    have hbl : m.buckets[i].length = m.slots := hmb _ (m.buckets.getElem_mem hib)
    rw [if_pos (by rw [hbl]; omega), hbl]
    have h1 : m.slots + 1 - m.slots = 1 := by omega
    rw [h1, List.getD_eq_getElem _ _ hib]
    rfl
  have hzero : ∀ i, ((m.add [] p oracle).buckets.getD i []).getD m.slots 0 = 0 := by
    intro i
    rcases Nat.lt_or_ge i m.buckets.length with hi | hi
    · rw [hcol i hi]
      have hbl : (m.buckets.getD i []).length = m.slots := by
        rw [List.getD_eq_getElem _ _ hi]
        exact hmb _ (m.buckets.getElem_mem hi)
      rw [List.getD_append_right _ _ _ _ (le_of_eq hbl), hbl, Nat.sub_self]
      rfl
    · have hlen : (m.add [] p oracle).buckets.length = m.buckets.length := by
        rw [hbucketseq, List.length_zipWith, List.length_replicate, min_self]
      have hnil : (m.add [] p oracle).buckets.getD i [] = [] := by
        rw [List.getD_eq_getElem?_getD, List.getElem?_eq_none (by rw [hlen]; omega)]
        rfl
      rw [hnil]
      rfl
  refine ⟨hparts, hsl, fun b hb => by rw [hwb b hb, hslots]; rfl, ?_⟩
  intro hmem
  simp only [CuckooIndex.query, hparts] at hmem
  rw [queryScan_append_parts] at hmem
  rcases List.mem_append.mp hmem with hmem | hmem
  · obtain ⟨q, hq, -, hqp⟩ := queryScan_mem p _ _ _ _ _ hmem
    exact hfresh q hq hqp
  · rw [queryScan] at hmem
    rw [if_pos rfl] at hmem
    rcases List.mem_append.mp hmem with hmem | hmem
    · obtain ⟨l, hl, hsome⟩ := List.mem_filterMap.mp hmem
      have hl0 : l = 0 := by
        have h2 := List.mem_range.mp hl
        have h3 : (⟨p, 1, true, 0⟩ : PartitionInfo P).bucket_size = 1 := rfl
        omega
      subst hl0
      by_cases hcond :
          ((m.add [] p oracle).buckets.getD
            (PartitionIndex.bucket k (m.add [] p oracle).buckets.length) []).getD
            (0 + totalWidth m.partitions + 0) 0 = fingerprint k ∨
          ((m.add [] p oracle).buckets.getD
            (flip_bucket (fingerprint k)
              (PartitionIndex.bucket k (m.add [] p oracle).buckets.length)
              (m.add [] p oracle).buckets.length) []).getD
            (0 + totalWidth m.partitions + 0) 0 = fingerprint k
      · have hpos : 0 + totalWidth m.partitions + 0 = m.slots := by omega
        rw [hpos] at hcond
        rcases hcond with hcond | hcond <;>
          · rw [hzero] at hcond
            exact hfp hcond.symm
      · rw [if_neg hcond] at hsome
        exact absurd hsome (by simp)
    · exact absurd hmem (by simp [queryScan])

/-- Witness for C10 on a fresh two-bucket index. -/
theorem add_empty_partition_witness :
    ((CuckooIndex.new Nat 2).add [] 3 []).partitions =
      (CuckooIndex.new Nat 2).partitions ++ [⟨3, 1, true, 0⟩] ∧
    ((CuckooIndex.new Nat 2).add [] 3 []).slots = (CuckooIndex.new Nat 2).slots + 1 ∧
    (∀ b ∈ ((CuckooIndex.new Nat 2).add [] 3 []).buckets,
      b.length = (CuckooIndex.new Nat 2).slots + 1) ∧
    3 ∉ ((CuckooIndex.new Nat 2).add [] 3 []).query 0 :=
  add_empty_partition (CuckooIndex.new Nat 2) 3 [] 0
    ⟨fun b hb => by rcases (List.mem_replicate.mp hb).2 with rfl; rfl, rfl⟩
    (by simp [CuckooIndex.new]) (by decide)


end PartitionIndex
